import Mathlib

/-!
Verification of the core ledger model of the Spendy expense tracker
(`src/App.js`).

The embedding models the in-memory state the React component holds
(`transactions`, `categories`, the `newTransaction` form, the viewed
`currentDate`) and the pure content of its handlers and derived views:
`handleAddTransaction`, `handleAddNewCategory`, `executeCategoryDeletion`,
`isSameMonth`, `getFilteredTransactions`, `getTotals` and
`getGroupedTransactions`.

Modelling conventions:
- JS numbers produced by `parseFloat` are modelled as `Option ℚ`, with
  `none` standing for `NaN` (the result of parsing a non-numeric string);
  addition propagates `none` exactly as JS addition propagates `NaN`.
- JS `Date` values are modelled by their local calendar triple
  (`getFullYear`, 0-based `getMonth`, 1-based `getDate`); `setDate` is
  modelled for the argument range the app uses (0 to 31).
- React `setX` calls are modelled by returning the new state; an early
  `return` before any `setX` call is modelled by returning the input state
  together with a `false` success flag.
-/

namespace Spendy

/-- Transaction type tag: the app uses the two string literals
'Income' and 'Expense' for the `type` field. -/
inductive TxType
  | Income
  | Expense
deriving DecidableEq

/-- Calendar date triple of a JS `Date` value in local time: `year` is
`getFullYear()`, `month` is the 0-based `getMonth()`, `day` is the 1-based
`getDate()`. -/
structure SimpleDate where
  year : Int
  month : Nat
  day : Nat
deriving DecidableEq

/-- JS number as stored in a transaction's `amount` field: `some q` is the
finite value `q`, `none` is `NaN`. -/
abbrev JSNum := Option ℚ

/-- JS addition on amounts: `NaN` poisons the sum. -/
def nanAdd : JSNum → JSNum → JSNum
  | some a, some b => some (a + b)
  | _, _ => none

/-- JS subtraction on amounts (for the `balance` field). -/
def nanSub : JSNum → JSNum → JSNum
  | some a, some b => some (a - b)
  | _, _ => none

/-- Sum of a list of JS numbers, used to state the aggregation claims. -/
def nanSum (l : List JSNum) : JSNum := l.foldr nanAdd (some 0)

/-- Transaction record as built by `handleAddTransaction` and stored in the
`transactions` state array. -/
structure Transaction where
  id : String
  dateISO : SimpleDate
  displayDate : String
  type : TxType
  amount : JSNum
  category : String
  note : String
deriving DecidableEq

/-- The `categories` state object: one ordered list of category names per
transaction type. -/
structure Categories where
  Income : List String
  Expense : List String
deriving DecidableEq

/-- Reading `categories[type]`. -/
def Categories.listFor (c : Categories) : TxType → List String
  | .Income => c.Income
  | .Expense => c.Expense

/-- The spread update `{ ...prev, [type]: l }` on the `categories` state. -/
def Categories.setList (c : Categories) (type : TxType) (l : List String) :
    Categories :=
  match type with
  | .Income => { c with Income := l }
  | .Expense => { c with Expense := l }

/-- Gregorian leap-year rule used by the JS `Date` calendar. -/
def isLeapYear (y : Int) : Bool :=
  (y % 4 == 0 && y % 100 != 0) || y % 400 == 0

/-- Number of days of the 0-based `month` in `year` in the JS `Date`
calendar (a `month` ≥ 12 is mapped to 31; such a value is never reached). -/
def daysInMonth (year : Int) (month : Nat) : Nat :=
  if month = 1 then (if isLeapYear year then 29 else 28)
  else if month = 3 ∨ month = 5 ∨ month = 8 ∨ month = 10 then 30
  else 31

/-- Model of JS `Date.prototype.setDate d` on a date with a month in 0..11,
for the argument range the app uses (0 ≤ d ≤ 31): `d = 0` moves to the last
day of the previous month, a `d` past the end of the current month rolls
over into the next month (the excess is at most 3 days, so at most one
month is crossed). -/
def setDayOfMonth (dt : SimpleDate) (d : Nat) : SimpleDate :=
  if d = 0 then
    (if dt.month = 0 then ⟨dt.year - 1, 11, 31⟩
     else ⟨dt.year, dt.month - 1, daysInMonth dt.year (dt.month - 1)⟩)
  else if d ≤ daysInMonth dt.year dt.month then ⟨dt.year, dt.month, d⟩
  else if dt.month = 11 then ⟨dt.year + 1, 0, d - 31⟩
  else ⟨dt.year, dt.month + 1, d - daysInMonth dt.year dt.month⟩

/-- Date computation of `handleAddTransaction`: clone `currentDate`, call
`setDate(now.getDate())`, and if that moved the month, call `setDate(0)`
(the rollover clamp back to the last day of the viewed month). -/
def assignedDate (currentDate : SimpleDate) (nowDay : Nat) : SimpleDate :=
  let transactionDate := setDayOfMonth currentDate nowDay
  if transactionDate.month ≠ currentDate.month then setDayOfMonth transactionDate 0
  else transactionDate

/-- Value of a decimal digit list (most significant first). -/
def digitsToNat (cs : List Char) : Nat :=
  cs.foldl (fun a c => a * 10 + (c.toNat - 48)) 0

/-- Model of JS `parseFloat` on the inputs the amount text field produces:
optional leading whitespace and sign, integer digits, optional '.' and
fraction digits; characters after the numeric prefix are ignored, as in JS.
`none` models the `NaN` result on inputs with no leading numeric prefix.
Exponent notation and the 'Infinity' literal are outside the model. -/
def parseFloat (s : String) : Option ℚ :=
  let cs := s.data.dropWhile Char.isWhitespace
  let sign : ℚ := if cs.head? = some '-' then -1 else 1
  let cs := if cs.head? = some '-' ∨ cs.head? = some '+' then cs.tail else cs
  let ip := cs.takeWhile Char.isDigit
  let rest := cs.dropWhile Char.isDigit
  if rest.head? = some '.' then
    let fp := rest.tail.takeWhile Char.isDigit
    if ip.isEmpty ∧ fp.isEmpty then none
    else some (sign * ((digitsToNat ip : ℚ) + (digitsToNat fp : ℚ) / (10 : ℚ) ^ fp.length))
  else if ip.isEmpty then none
  else some (sign * (digitsToNat ip : ℚ))

/-- Model of JS `Number.prototype.toString` on the integer clock values
returned by `Date.now()`: the decimal digit string. -/
def natToString (n : Nat) : String :=
  if n = 0 then "0"
  else ((Nat.digits 10 n).reverse.map Nat.digitChar).asString

/-- Decimal rendering of a possibly negative year, for the display date. -/
def intToString (y : Int) : String :=
  if y < 0 then "-" ++ natToString y.natAbs else natToString y.natAbs

/-- Model of `toLocaleDateString()` under the default en-US locale:
month/day/year. The claims never inspect this string. -/
def toLocaleDateString (d : SimpleDate) : String :=
  natToString (d.month + 1) ++ "/" ++ natToString d.day ++ "/" ++ intToString d.year

/-- The `newTransaction` form state; `amount` is the raw text-input
string. -/
structure NewTransactionForm where
  type : TxType
  amount : String
  category : String
  note : String

/-- Model of `handleAddTransaction`. The arguments mirror the handler's free
variables: the `newTransaction` form, the viewed `currentDate`,
`nowDay = (new Date()).getDate()`, `nowMs = Date.now()`, and the current
`transactions` state. The validation guard `!newTransaction.amount ||
!newTransaction.category` is string falsiness, i.e. emptiness. Returns the
new `transactions` state and whether a transaction was committed. -/
def handleAddTransaction (form : NewTransactionForm) (currentDate : SimpleDate)
    (nowDay : Nat) (nowMs : Nat) (transactions : List Transaction) :
    List Transaction × Bool :=
  if form.amount = "" ∨ form.category = "" then (transactions, false)
  else
    let transactionDate := assignedDate currentDate nowDay
    let transaction : Transaction :=
      { id := natToString nowMs
        dateISO := transactionDate
        displayDate := toLocaleDateString transactionDate
        type := form.type
        amount := parseFloat form.amount
        category := form.category
        note := form.note }
    (transaction :: transactions, true)

/-- Model of `isSameMonth`: re-derive month and year from the stored date
value and compare both. -/
def isSameMonth (d1 d2 : SimpleDate) : Bool :=
  d1.month == d2.month && d1.year == d2.year

/-- Model of `getFilteredTransactions`: the transactions of the viewed
month. -/
def getFilteredTransactions (transactions : List Transaction)
    (currentDate : SimpleDate) : List Transaction :=
  transactions.filter (fun t => isSameMonth t.dateISO currentDate)

/-- Result record of `getTotals`. -/
structure Totals where
  income : JSNum
  expense : JSNum
  balance : JSNum
deriving DecidableEq

/-- Model of `getTotals` over the already-filtered list; `Number` applied to
a stored amount is the identity. -/
def getTotals (filtered : List Transaction) : Totals :=
  let income := (filtered.filter (fun t => decide (t.type = TxType.Income))).foldl
    (fun acc t => nanAdd acc t.amount) (some 0)
  let expense := (filtered.filter (fun t => decide (t.type = TxType.Expense))).foldl
    (fun acc t => nanAdd acc t.amount) (some 0)
  { income := income, expense := expense, balance := nanSub income expense }

/-- String of a `type` value as interpolated into the grouping key. -/
def typeString : TxType → String
  | .Income => "Income"
  | .Expense => "Expense"

/-- The template literal forming a grouping key from a type and a
category. -/
def mkKey (ty : TxType) (category : String) : String :=
  typeString ty ++ "-" ++ category

/-- Group record built by `getGroupedTransactions`. -/
structure Group where
  key : String
  category : String
  type : TxType
  total : JSNum
  transactions : List Transaction
deriving DecidableEq

/-- The grouping key of a transaction. -/
def groupKey (t : Transaction) : String := mkKey t.type t.category

/-- One step of the `forEach` accumulation in `getGroupedTransactions`: if a
group with the transaction's key exists it is updated in place (the
transaction is pushed and its amount added to the running total), otherwise
a fresh group (total 0 and empty list, immediately updated) is created; JS
object properties enumerate in insertion order, so fresh groups go to the
end. -/
def addToGroups (t : Transaction) : List Group → List Group
  | [] => [{ key := groupKey t, category := t.category, type := t.type,
             total := nanAdd (some 0) t.amount, transactions := [t] }]
  | g :: gs =>
    if g.key = groupKey t then
      { g with transactions := g.transactions ++ [t],
               total := nanAdd g.total t.amount } :: gs
    else g :: addToGroups t gs

/-- The insertion-ordered group list (`Object.values(groups)`) before
sorting. -/
def groupsOf (filtered : List Transaction) : List Group :=
  filtered.foldl (fun gs t => addToGroups t gs) []

/-- Total boolean order on JS numbers backing the numeric comparator
`b.total - a.total`: on finite values it is the numeric order. A `NaN`
total is ordered first arbitrarily; the JS comparator is not well defined
there, and the ordering theorems below only speak about finite totals. -/
def jsNumLE : JSNum → JSNum → Bool
  | some a, some b => decide (a ≤ b)
  | none, _ => true
  | some _, none => false

/-- The sort comparator of `getGroupedTransactions`, read as a boolean
"may come before": groups of different types put 'Income' first, groups of
equal type are ordered by descending total. -/
def groupLE (a b : Group) : Bool :=
  if a.type = b.type then jsNumLE b.total a.total
  else decide (a.type = TxType.Income)

/-- Model of `getGroupedTransactions` on the already-filtered list:
accumulate the groups in insertion order, then sort with the comparator. -/
def getGroupedTransactions (filtered : List Transaction) : List Group :=
  (groupsOf filtered).mergeSort groupLE

/-- Model of `handleAddNewCategory`: trim the entered name; a no-op when the
trimmed name is empty or already present in the current type's list,
otherwise append the trimmed name to that list. Returns the new
`categories` state and whether a category was added. -/
def handleAddNewCategory (newCategoryName : String) (type : TxType)
    (categories : Categories) : Categories × Bool :=
  if newCategoryName.trim = "" then (categories, false)
  else if newCategoryName.trim ∈ categories.listFor type then (categories, false)
  else
    (categories.setList type (categories.listFor type ++ [newCategoryName.trim]), true)

/-- The `action` argument of `executeCategoryDeletion`. -/
inductive DeletionAction
  | delete
  | reassign
deriving DecidableEq

/-- The dependent transactions of a category: those the deletion dialog is
about, i.e. with matching `category` and `type`. -/
def dependents (categoryName : String) (type : TxType)
    (transactions : List Transaction) : List Transaction :=
  transactions.filter (fun t => decide (t.category = categoryName ∧ t.type = type))

/-- Model of `executeCategoryDeletion`. `reassignCategory` is the selected
reassignment target state. Returns the new `(transactions, categories)`
pair and whether the deletion was executed; in 'reassign' mode with no
target chosen the handler returns early, leaving both states untouched. -/
def executeCategoryDeletion (categoryName : String) (type : TxType)
    (action : DeletionAction) (reassignCategory : String)
    (transactions : List Transaction) (categories : Categories) :
    (List Transaction × Categories) × Bool :=
  match action with
  | .delete =>
    let updated := transactions.filter
      (fun t => decide (¬(t.category = categoryName ∧ t.type = type)))
    ((updated,
      categories.setList type
        ((categories.listFor type).filter (fun c => decide (c ≠ categoryName)))), true)
  | .reassign =>
    if reassignCategory = "" then ((transactions, categories), false)
    else
      let updated := transactions.map (fun t =>
        if t.category = categoryName ∧ t.type = type then
          { t with category := reassignCategory }
        else t)
      ((updated,
        categories.setList type
          ((categories.listFor type).filter (fun c => decide (c ≠ categoryName)))), true)

/-! Helper lemmas about the registry update. -/

theorem listFor_setList_same (c : Categories) (ty : TxType) (l : List String) :
    (c.setList ty l).listFor ty = l := by
  cases ty <;> rfl

theorem listFor_setList_other (c : Categories) (ty ty' : TxType) (l : List String)
    (h : ty' ≠ ty) : (c.setList ty l).listFor ty' = c.listFor ty' := by
  cases ty <;> cases ty' <;> first | rfl | exact absurd rfl h

/-- C9: resolving a category deletion in reassign mode with an empty target
fails and leaves both the ledger and the registry untouched. -/
theorem reassign_empty_target_no_change (categoryName : String) (type : TxType)
    (transactions : List Transaction) (categories : Categories) :
    executeCategoryDeletion categoryName type .reassign "" transactions categories =
      ((transactions, categories), false) := by
  simp [executeCategoryDeletion]

/-- C5: the month filter returns a subset of the ledger, every returned
transaction's stored date re-derives to the reference month and year, and
no transaction of another month or year is included. -/
theorem month_filter_spec (transactions : List Transaction) (currentDate : SimpleDate) :
    (getFilteredTransactions transactions currentDate).Sublist transactions ∧
    (∀ t ∈ getFilteredTransactions transactions currentDate,
      t.dateISO.month = currentDate.month ∧ t.dateISO.year = currentDate.year) ∧
    (∀ t ∈ transactions,
      ¬(t.dateISO.month = currentDate.month ∧ t.dateISO.year = currentDate.year) →
      t ∉ getFilteredTransactions transactions currentDate) := by
  refine ⟨List.filter_sublist _, ?_, ?_⟩
  · intro t ht
    have h := List.of_mem_filter ht
    simpa [isSameMonth] using h
  · intro t _ hne hmem
    have h := List.of_mem_filter hmem
    simp only [isSameMonth, Bool.and_eq_true, beq_iff_eq] at h
    exact hne h

/-- C2 counterexample: the amount input 'abc' is non-empty but unparseable
(`parseFloat` yields `NaN`), yet the add operation succeeds and grows the
ledger by one, contradicting the claim that an unparseable amount is
rejected. -/
theorem add_unparseable_amount_not_rejected :
    parseFloat "abc" = none ∧
    (handleAddTransaction ⟨TxType.Expense, "abc", "Food", ""⟩ ⟨2025, 2, 15⟩ 15 1000 []).2
      = true ∧
    ((handleAddTransaction ⟨TxType.Expense, "abc", "Food", ""⟩ ⟨2025, 2, 15⟩ 15 1000 []).1).length
      = 1 :=
  ⟨by decide, rfl, rfl⟩

/-- C2 amended: the add operation fails, with no mutation of the ledger,
exactly when the amount string or the category is empty; a non-empty but
unparseable amount is not rejected: the transaction is created and stores
the `NaN` parse result as its amount. -/
theorem add_validation_characterization (form : NewTransactionForm)
    (currentDate : SimpleDate) (nowDay nowMs : Nat)
    (transactions : List Transaction) :
    ((form.amount = "" ∨ form.category = "") →
      handleAddTransaction form currentDate nowDay nowMs transactions =
        (transactions, false)) ∧
    (form.amount ≠ "" → form.category ≠ "" →
      (handleAddTransaction form currentDate nowDay nowMs transactions).2 = true ∧
      ∃ newTx,
        (handleAddTransaction form currentDate nowDay nowMs transactions).1 =
          newTx :: transactions ∧
        newTx.amount = parseFloat form.amount) := by
  constructor
  · intro h
    simp [handleAddTransaction, h]
  · intro h1 h2
    have hcond : ¬(form.amount = "" ∨ form.category = "") := by
      rintro (h | h) <;> [exact h1 h; exact h2 h]
    rw [handleAddTransaction, if_neg hcond]
    exact ⟨rfl, _, rfl, rfl⟩

/-- C8: adding a category trims the entered name; the registry is unchanged
when the trimmed name is empty or already present in that type's list, and
otherwise the trimmed name is appended at the end of that type's list while
the other type's list is unchanged. -/
theorem add_category_spec (newCategoryName : String) (type : TxType)
    (categories : Categories) :
    ((newCategoryName.trim = "" ∨ newCategoryName.trim ∈ categories.listFor type) →
      handleAddNewCategory newCategoryName type categories = (categories, false)) ∧
    (newCategoryName.trim ≠ "" → newCategoryName.trim ∉ categories.listFor type →
      (handleAddNewCategory newCategoryName type categories).2 = true ∧
      (handleAddNewCategory newCategoryName type categories).1.listFor type =
        categories.listFor type ++ [newCategoryName.trim] ∧
      ∀ ty, ty ≠ type →
        (handleAddNewCategory newCategoryName type categories).1.listFor ty =
          categories.listFor ty) := by
  constructor
  · intro h
    by_cases h0 : newCategoryName.trim = ""
    · simp [handleAddNewCategory, h0]
    · rcases h with h | h
      · exact absurd h h0
      · simp [handleAddNewCategory, h0, h]
  · intro h1 h2
    rw [handleAddNewCategory, if_neg h1, if_neg h2]
    exact ⟨rfl, listFor_setList_same _ _ _,
      fun ty hty => listFor_setList_other _ _ _ _ hty⟩

/-! Date arithmetic lemmas for the rollover rule. -/

theorem daysInMonth_bounds (y : Int) (m : Nat) :
    28 ≤ daysInMonth y m ∧ daysInMonth y m ≤ 31 := by
  unfold daysInMonth
  split_ifs <;> omega

theorem daysInMonth_december (y : Int) : daysInMonth y 11 = 31 := rfl

/-- C3: the assigned transaction date applies the current real-world
day-of-month to the reference month's year and month; when that day exceeds
the length of the reference month the date is clamped to the reference
month's last day, so the assigned date always falls inside the reference
month. -/
theorem assigned_date_in_reference_month (currentDate : SimpleDate) (nowDay : Nat)
    (hm : currentDate.month < 12) (hd1 : 1 ≤ nowDay) (hd31 : nowDay ≤ 31) :
    (assignedDate currentDate nowDay).year = currentDate.year ∧
    (assignedDate currentDate nowDay).month = currentDate.month ∧
    (nowDay ≤ daysInMonth currentDate.year currentDate.month →
      (assignedDate currentDate nowDay).day = nowDay) ∧
    (daysInMonth currentDate.year currentDate.month < nowDay →
      (assignedDate currentDate nowDay).day =
        daysInMonth currentDate.year currentDate.month) ∧
    1 ≤ (assignedDate currentDate nowDay).day ∧
    (assignedDate currentDate nowDay).day ≤
      daysInMonth currentDate.year currentDate.month := by
  obtain ⟨y, m, d⟩ := currentDate
  simp only at hm ⊢
  have h0 : ¬ nowDay = 0 := by omega
  by_cases hle : nowDay ≤ daysInMonth y m
  · have heq : assignedDate ⟨y, m, d⟩ nowDay = ⟨y, m, nowDay⟩ := by
      rw [assignedDate, setDayOfMonth, if_neg h0, if_pos hle]
      simp
    rw [heq]
    refine ⟨rfl, rfl, fun _ => rfl, fun hlt => ?_, hd1, hle⟩
    exact absurd hlt (by omega)
  · have hm11 : ¬ m = 11 := by
      intro h
      rw [h, daysInMonth_december] at hle
      omega
    have hstep : setDayOfMonth ⟨y, m, d⟩ nowDay =
        ⟨y, m + 1, nowDay - daysInMonth y m⟩ := by
      rw [setDayOfMonth, if_neg h0, if_neg hle, if_neg hm11]
    have heq : assignedDate ⟨y, m, d⟩ nowDay = ⟨y, m, daysInMonth y m⟩ := by
      rw [assignedDate, hstep]
      have hne : ((⟨y, m + 1, nowDay - daysInMonth y m⟩ : SimpleDate).month ≠
          (⟨y, m, d⟩ : SimpleDate).month) := by simp
      rw [if_pos hne, setDayOfMonth, if_pos rfl]
      simp
    rw [heq]
    have hb := daysInMonth_bounds y m
    refine ⟨rfl, rfl, fun h => absurd h hle, fun _ => rfl, ?_, le_refl _⟩
    show 1 ≤ daysInMonth y m
    omega

/-! Algebra of NaN-propagating addition. -/

theorem nanAdd_some_zero (a : JSNum) : nanAdd (some 0) a = a := by
  cases a <;> simp [nanAdd]

theorem nanAdd_zero_right (a : JSNum) : nanAdd a (some 0) = a := by
  cases a <;> simp [nanAdd]

theorem nanAdd_comm (a b : JSNum) : nanAdd a b = nanAdd b a := by
  cases a <;> cases b <;> simp [nanAdd, add_comm]

theorem nanAdd_assoc (a b c : JSNum) :
    nanAdd (nanAdd a b) c = nanAdd a (nanAdd b c) := by
  cases a <;> cases b <;> cases c <;> simp [nanAdd, add_assoc]

theorem nanAdd_left_comm (a b c : JSNum) :
    nanAdd a (nanAdd b c) = nanAdd b (nanAdd a c) := by
  rw [← nanAdd_assoc, nanAdd_comm a b, nanAdd_assoc]

theorem nanSum_nil : nanSum [] = some 0 := rfl

theorem nanSum_cons (x : JSNum) (l : List JSNum) :
    nanSum (x :: l) = nanAdd x (nanSum l) := rfl

theorem nanSum_perm {l l' : List JSNum} (h : l.Perm l') : nanSum l = nanSum l' := by
  induction h with
  | nil => rfl
  | cons x _ ih => simp [nanSum_cons, ih]
  | swap x y l => simp [nanSum_cons, nanAdd_left_comm]
  | trans _ _ ih1 ih2 => rw [ih1, ih2]

theorem foldl_nanAdd_amounts (l : List Transaction) : ∀ a : JSNum,
    l.foldl (fun acc t => nanAdd acc t.amount) a =
      nanAdd a (nanSum (l.map (fun t => t.amount))) := by
  induction l with
  | nil => intro a; simp [nanSum, nanAdd_zero_right]
  | cons t l ih =>
    intro a
    simp only [List.foldl_cons, List.map_cons, nanSum_cons]
    rw [ih, nanAdd_assoc]

theorem nanSum_partition_type (l : List Transaction) :
    nanAdd
      (nanSum ((l.filter (fun t => decide (t.type = TxType.Income))).map
        (fun t => t.amount)))
      (nanSum ((l.filter (fun t => decide (t.type = TxType.Expense))).map
        (fun t => t.amount)))
      = nanSum (l.map (fun t => t.amount)) := by
  induction l with
  | nil => simp [nanSum, nanAdd]
  | cons t l ih =>
    cases htype : t.type
    · rw [List.filter_cons_of_pos (by simp [htype]),
        List.filter_cons_of_neg (by simp [htype])]
      simp only [List.map_cons, nanSum_cons]
      rw [nanAdd_assoc, ih]
    · rw [List.filter_cons_of_neg (by simp [htype]),
        List.filter_cons_of_pos (by simp [htype])]
      simp only [List.map_cons, nanSum_cons]
      rw [nanAdd_left_comm, ih]

theorem sumTotals_addToGroups (t : Transaction) (gs : List Group) :
    nanSum ((addToGroups t gs).map (fun g => g.total)) =
      nanAdd t.amount (nanSum (gs.map (fun g => g.total))) := by
  induction gs with
  | nil =>
    simp [addToGroups, nanSum, nanAdd_zero_right, nanAdd_some_zero]
  | cons g gs ih =>
    by_cases h : g.key = groupKey t
    · simp only [addToGroups, if_pos h, List.map_cons, nanSum_cons]
      rw [← nanAdd_assoc, nanAdd_comm t.amount g.total, nanAdd_assoc]
    · simp only [addToGroups, if_neg h, List.map_cons, nanSum_cons, ih]
      rw [nanAdd_left_comm]

theorem sumTotals_fold (l : List Transaction) : ∀ gs : List Group,
    nanSum ((l.foldl (fun gs t => addToGroups t gs) gs).map (fun g => g.total)) =
      nanAdd (nanSum (gs.map (fun g => g.total)))
        (nanSum (l.map (fun t => t.amount))) := by
  induction l with
  | nil => intro gs; simp [nanSum, nanAdd_zero_right]
  | cons t l ih =>
    intro gs
    simp only [List.foldl_cons, List.map_cons, nanSum_cons]
    rw [ih (addToGroups t gs), sumTotals_addToGroups]
    rw [nanAdd_comm t.amount, nanAdd_assoc]

/-- C6: the sum of the group totals produced by the grouping equals the
income total plus the expense total of the totals computation. -/
theorem grouped_totals_match_signed_totals (filtered : List Transaction) :
    nanSum ((getGroupedTransactions filtered).map (fun g => g.total)) =
      nanAdd (getTotals filtered).income (getTotals filtered).expense := by
  have hperm :
      (((groupsOf filtered).mergeSort groupLE).map (fun g => g.total)).Perm
        ((groupsOf filtered).map (fun g => g.total)) :=
    (List.mergeSort_perm (groupsOf filtered) groupLE).map _
  rw [getGroupedTransactions, nanSum_perm hperm, groupsOf, sumTotals_fold]
  rw [getTotals]
  simp only [List.map_nil, nanSum_nil]
  rw [foldl_nanAdd_amounts, foldl_nanAdd_amounts, nanAdd_some_zero,
    nanAdd_some_zero, nanAdd_some_zero, nanSum_partition_type]

/-! Reduction lemmas for the two deletion modes, and registry facts. -/

theorem executeCategoryDeletion_delete_eq (categoryName : String) (type : TxType)
    (target : String) (transactions : List Transaction) (categories : Categories) :
    executeCategoryDeletion categoryName type .delete target transactions categories =
      ((transactions.filter
          (fun t => decide (¬(t.category = categoryName ∧ t.type = type))),
        categories.setList type
          ((categories.listFor type).filter (fun c => decide (c ≠ categoryName)))),
       true) := rfl

theorem executeCategoryDeletion_reassign_eq (categoryName : String) (type : TxType)
    (target : String) (transactions : List Transaction) (categories : Categories)
    (h : target ≠ "") :
    executeCategoryDeletion categoryName type .reassign target transactions categories =
      ((transactions.map (fun t =>
          if t.category = categoryName ∧ t.type = type then
            { t with category := target }
          else t),
        categories.setList type
          ((categories.listFor type).filter (fun c => decide (c ≠ categoryName)))),
       true) := by
  simp [executeCategoryDeletion, h]

theorem filter_length_partition {α : Type} (p : α → Prop) [DecidablePred p]
    (l : List α) :
    (l.filter (fun t => decide (¬ p t))).length +
      (l.filter (fun t => decide (p t))).length = l.length := by
  induction l with
  | nil => rfl
  | cons t l ih =>
    by_cases h : p t
    · rw [List.filter_cons_of_neg (by simp [h]), List.filter_cons_of_pos (by simp [h])]
      simp only [List.length_cons]
      omega
    · rw [List.filter_cons_of_pos (by simp [h]), List.filter_cons_of_neg (by simp [h])]
      simp only [List.length_cons]
      omega

theorem removedCategory_not_mem (categories : Categories) (type : TxType)
    (categoryName : String) :
    categoryName ∉
      (categories.setList type
        ((categories.listFor type).filter
          (fun c => decide (c ≠ categoryName)))).listFor type := by
  rw [listFor_setList_same]
  intro hmem
  have h := List.of_mem_filter hmem
  simp at h

theorem removedCategory_count_other (categories : Categories) (type : TxType)
    (categoryName c : String) (h : c ≠ categoryName) :
    ((categories.setList type
        ((categories.listFor type).filter
          (fun x => decide (x ≠ categoryName)))).listFor type).count c =
      ((categories.listFor type).count c) := by
  rw [listFor_setList_same]
  exact List.count_filter (by simp [h])

/-- C1: in delete mode the resolution removes exactly the dependent
transactions (count zero for dependents, counts of all other records
preserved, length reduced by the number of dependents) and removes the
category from its type's registry list; in reassign mode with a chosen
target the ledger length is unchanged and exactly the dependent
transactions have their category field rewritten to the target (all other
fields, and all non-dependent records, untouched), and the category is
removed from the registry; with zero dependents the ledger is unchanged in
either mode. -/
theorem category_deletion_modes (categoryName : String) (type : TxType)
    (targetCategory : String) (transactions : List Transaction)
    (categories : Categories) (htarget : targetCategory ≠ "") :
    ((executeCategoryDeletion categoryName type .delete targetCategory
        transactions categories).2 = true ∧
     (∀ t : Transaction,
       (executeCategoryDeletion categoryName type .delete targetCategory
         transactions categories).1.1.count t =
       if t.category = categoryName ∧ t.type = type then 0
       else transactions.count t) ∧
     (executeCategoryDeletion categoryName type .delete targetCategory
        transactions categories).1.1.length +
       (dependents categoryName type transactions).length = transactions.length ∧
     categoryName ∉
       (executeCategoryDeletion categoryName type .delete targetCategory
         transactions categories).1.2.listFor type ∧
     (∀ c, c ≠ categoryName →
       ((executeCategoryDeletion categoryName type .delete targetCategory
          transactions categories).1.2.listFor type).count c =
         ((categories.listFor type).count c))) ∧
    ((executeCategoryDeletion categoryName type .reassign targetCategory
        transactions categories).2 = true ∧
     (executeCategoryDeletion categoryName type .reassign targetCategory
        transactions categories).1.1.length = transactions.length ∧
     (∀ i, (hi : i < transactions.length) →
       if (transactions[i]).category = categoryName ∧ (transactions[i]).type = type
       then ∃ t',
         (executeCategoryDeletion categoryName type .reassign targetCategory
           transactions categories).1.1[i]? = some t' ∧
         t'.category = targetCategory ∧
         t'.id = (transactions[i]).id ∧
         t'.type = (transactions[i]).type ∧
         t'.amount = (transactions[i]).amount ∧
         t'.note = (transactions[i]).note ∧
         t'.dateISO = (transactions[i]).dateISO ∧
         t'.displayDate = (transactions[i]).displayDate
       else
         (executeCategoryDeletion categoryName type .reassign targetCategory
           transactions categories).1.1[i]? = some (transactions[i])) ∧
     categoryName ∉
       (executeCategoryDeletion categoryName type .reassign targetCategory
         transactions categories).1.2.listFor type ∧
     (∀ c, c ≠ categoryName →
       ((executeCategoryDeletion categoryName type .reassign targetCategory
          transactions categories).1.2.listFor type).count c =
         ((categories.listFor type).count c))) ∧
    ((dependents categoryName type transactions).length = 0 →
      (executeCategoryDeletion categoryName type .delete targetCategory
        transactions categories).1.1 = transactions ∧
      (executeCategoryDeletion categoryName type .reassign targetCategory
        transactions categories).1.1 = transactions) := by
  rw [executeCategoryDeletion_delete_eq,
    executeCategoryDeletion_reassign_eq categoryName type targetCategory
      transactions categories htarget]
  refine ⟨⟨rfl, ?_, ?_, removedCategory_not_mem _ _ _,
      fun c hc => removedCategory_count_other _ _ _ _ hc⟩,
    ⟨rfl, by simp, ?_, removedCategory_not_mem _ _ _,
      fun c hc => removedCategory_count_other _ _ _ _ hc⟩, ?_⟩
  · -- count characterization of delete mode
    intro t
    by_cases hdep : t.category = categoryName ∧ t.type = type
    · rw [if_pos hdep]
      refine List.count_eq_zero.mpr ?_
      intro hmem
      have h := List.of_mem_filter hmem
      simp only [decide_eq_true_eq] at h
      exact h hdep
    · rw [if_neg hdep]
      exact List.count_filter (by simp only [decide_eq_true_eq]; exact hdep)
  · -- length equation of delete mode
    exact filter_length_partition
      (fun t => t.category = categoryName ∧ t.type = type) transactions
  · -- pointwise characterization of reassign mode
    intro i hi
    by_cases hdep : (transactions[i]).category = categoryName ∧
        (transactions[i]).type = type
    · rw [if_pos hdep]
      refine ⟨{ transactions[i] with category := targetCategory }, ?_, rfl, rfl,
        rfl, rfl, rfl, rfl, rfl⟩
      rw [List.getElem?_map, List.getElem?_eq_getElem hi]
      simp [hdep]
    · rw [if_neg hdep]
      rw [List.getElem?_map, List.getElem?_eq_getElem hi]
      simp [hdep]
  · -- zero dependents leaves the ledger unchanged
    intro hzero
    have hnil : dependents categoryName type transactions = [] :=
      List.length_eq_zero.mp hzero
    have hnone : ∀ t ∈ transactions,
        ¬(t.category = categoryName ∧ t.type = type) := by
      intro t ht
      have := List.filter_eq_nil_iff.mp hnil t ht
      simpa using this
    constructor
    · exact List.filter_eq_self.mpr fun t ht => by
        simp only [decide_eq_true_eq]
        exact hnone t ht
    · have : transactions.map (fun t =>
          if t.category = categoryName ∧ t.type = type then
            { t with category := targetCategory }
          else t) = transactions.map id := by
        apply List.map_congr_left
        intro t ht
        rw [if_neg (hnone t ht)]
        rfl
      rw [this, List.map_id]

/-- C10: deleting a category of one type, in either mode, leaves every
transaction of the other type completely unchanged (even when its category
field equals the deleted name), and leaves the other type's registry list
unchanged. -/
theorem deletion_type_isolated (categoryName : String) (type : TxType)
    (action : DeletionAction) (reassignCategory : String)
    (transactions : List Transaction) (categories : Categories)
    (hsucc : (executeCategoryDeletion categoryName type action reassignCategory
      transactions categories).2 = true) :
    (executeCategoryDeletion categoryName type action reassignCategory
       transactions categories).1.1.filter (fun t => decide (t.type ≠ type)) =
      transactions.filter (fun t => decide (t.type ≠ type)) ∧
    (∀ t ∈ transactions, t.type ≠ type →
      t ∈ (executeCategoryDeletion categoryName type action reassignCategory
        transactions categories).1.1) ∧
    (∀ ty, ty ≠ type →
      (executeCategoryDeletion categoryName type action reassignCategory
        transactions categories).1.2.listFor ty = categories.listFor ty) := by
  cases action with
  | delete =>
    clear hsucc
    rw [executeCategoryDeletion_delete_eq]
    refine ⟨?_, ?_, fun ty hty => listFor_setList_other _ _ _ _ hty⟩
    · induction transactions with
      | nil => rfl
      | cons t l ih =>
        by_cases hty : t.type = type
        · by_cases hdep : t.category = categoryName ∧ t.type = type
          · rw [List.filter_cons_of_neg (by simp [hdep.1, hdep.2]),
              List.filter_cons_of_neg (by simp [hty])]
            exact ih
          · rw [List.filter_cons_of_pos
                (by simp only [decide_eq_true_eq]; exact hdep),
              List.filter_cons_of_neg (by simp [hty]),
              List.filter_cons_of_neg (by simp [hty])]
            exact ih
        · rw [List.filter_cons_of_pos (by simp [hty]),
            List.filter_cons_of_pos (by simp [hty]),
            List.filter_cons_of_pos (by simp [hty]), ih]
    · intro t ht htype
      exact List.mem_filter.mpr ⟨ht, by simp [htype]⟩
  | reassign =>
    by_cases htarget : reassignCategory = ""
    · simp [executeCategoryDeletion, htarget] at hsucc
    · clear hsucc
      rw [executeCategoryDeletion_reassign_eq _ _ _ _ _ htarget]
      refine ⟨?_, ?_, fun ty hty => listFor_setList_other _ _ _ _ hty⟩
      · induction transactions with
        | nil => rfl
        | cons t l ih =>
          simp only [List.map_cons]
          by_cases hdep : t.category = categoryName ∧ t.type = type
          · rw [if_pos hdep,
              List.filter_cons_of_neg (by simp [hdep.2]),
              List.filter_cons_of_neg (by simp [hdep.2])]
            exact ih
          · rw [if_neg hdep]
            by_cases hty : t.type = type
            · rw [List.filter_cons_of_neg (by simp [hty]),
                List.filter_cons_of_neg (by simp [hty])]
              exact ih
            · rw [List.filter_cons_of_pos (by simp [hty]),
                List.filter_cons_of_pos (by simp [hty]), ih]
      · intro t ht htype
        refine List.mem_map.mpr ⟨t, ht, ?_⟩
        exact if_neg (fun h => htype h.2)

/-! Injectivity of the decimal string rendering of the clock value. -/

theorem digitChar_injOn : ∀ a < 10, ∀ b < 10,
    Nat.digitChar a = Nat.digitChar b → a = b := by decide

theorem map_digitChar_inj : ∀ l₁ l₂ : List Nat, (∀ d ∈ l₁, d < 10) →
    (∀ d ∈ l₂, d < 10) → l₁.map Nat.digitChar = l₂.map Nat.digitChar →
    l₁ = l₂ := by
  intro l₁
  induction l₁ with
  | nil => intro l₂ _ _ h; cases l₂ <;> simp_all
  | cons a l ih =>
    intro l₂ h1 h2 h
    cases l₂ with
    | nil => simp_all
    | cons b l' =>
      simp only [List.map_cons, List.cons.injEq] at h
      have hab : a = b :=
        digitChar_injOn a (h1 a (by simp)) b (h2 b (by simp)) h.1
      subst hab
      rw [ih l' (fun d hd => h1 d (by simp [hd])) (fun d hd => h2 d (by simp [hd]))
        h.2]

theorem digits_rev_bound (n : Nat) : ∀ d ∈ (Nat.digits 10 n).reverse, d < 10 := by
  intro d hd
  exact Nat.digits_lt_base (by norm_num) (List.mem_reverse.mp hd)

theorem natToString_zero_ne (n : Nat) (hn : n ≠ 0) : natToString n ≠ "0" := by
  intro h
  rw [natToString, if_neg hn] at h
  have hdata := congrArg String.data h
  have hAs : (((Nat.digits 10 n).reverse.map Nat.digitChar).asString).data =
      (Nat.digits 10 n).reverse.map Nat.digitChar := rfl
  have h0 : ("0" : String).data = ['0'] := rfl
  rw [hAs, h0] at hdata
  have hmap : (Nat.digits 10 n).reverse.map Nat.digitChar =
      ([0] : List Nat).map Nat.digitChar := by simpa using hdata
  have heq := map_digitChar_inj _ _ (digits_rev_bound n) (by norm_num) hmap
  have hdig : Nat.digits 10 n = [0] := by
    have := congrArg List.reverse heq
    simpa using this
  have hofd : n = Nat.ofDigits 10 (Nat.digits 10 n) :=
    (Nat.ofDigits_digits 10 n).symm
  rw [hdig] at hofd
  simp [Nat.ofDigits] at hofd
  exact hn hofd

theorem natToString_inj (m n : Nat) (h : natToString m = natToString n) :
    m = n := by
  by_cases hm : m = 0 <;> by_cases hn : n = 0
  · rw [hm, hn]
  · exfalso
    rw [hm] at h
    exact natToString_zero_ne n hn h.symm
  · exfalso
    rw [hn] at h
    exact natToString_zero_ne m hm h
  · rw [natToString, if_neg hm, natToString, if_neg hn] at h
    have hdata := congrArg String.data h
    have hAsm : (((Nat.digits 10 m).reverse.map Nat.digitChar).asString).data =
        (Nat.digits 10 m).reverse.map Nat.digitChar := rfl
    have hAsn : (((Nat.digits 10 n).reverse.map Nat.digitChar).asString).data =
        (Nat.digits 10 n).reverse.map Nat.digitChar := rfl
    rw [hAsm, hAsn] at hdata
    have heq := map_digitChar_inj _ _ (digits_rev_bound m) (digits_rev_bound n)
      hdata
    have hdig : Nat.digits 10 m = Nat.digits 10 n := by
      have := congrArg List.reverse heq
      simpa using this
    exact Nat.digits_inj_iff.mp hdig

/-- C4: a valid add call (non-empty amount and category) prepends the new
transaction to the prior ledger, the ledger length grows by exactly one,
and the new record's id (the decimal string of the clock value) differs
from every prior id, all prior ids having been generated from earlier
clock values. -/
theorem add_prepends_with_fresh_id (form : NewTransactionForm)
    (currentDate : SimpleDate) (nowDay nowMs : Nat)
    (transactions : List Transaction)
    (hamount : form.amount ≠ "") (hcat : form.category ≠ "")
    (hids : ∀ t ∈ transactions, ∃ k, k < nowMs ∧ t.id = natToString k) :
    ∃ newTx,
      handleAddTransaction form currentDate nowDay nowMs transactions =
        (newTx :: transactions, true) ∧
      (handleAddTransaction form currentDate nowDay nowMs transactions).1.length =
        transactions.length + 1 ∧
      newTx.id ∉ transactions.map (fun t => t.id) := by
  have hcond : ¬(form.amount = "" ∨ form.category = "") := by
    rintro (h | h) <;> [exact hamount h; exact hcat h]
  rw [handleAddTransaction, if_neg hcond]
  refine ⟨_, rfl, by simp, ?_⟩
  intro hmem
  obtain ⟨t, ht, hid⟩ := List.mem_map.mp hmem
  obtain ⟨k, hk, hkid⟩ := hids t ht
  rw [hkid] at hid
  have : k = nowMs := natToString_inj k nowMs hid
  omega

/-! Key decoding: the grouping key determines the (type, category) pair. -/

/-- Inverse of the key template, used to prove the key injective. -/
def decodeKey (s : String) : TxType × String :=
  if s.data.head? = some 'I' then (TxType.Income, ⟨s.data.drop 7⟩)
  else (TxType.Expense, ⟨s.data.drop 8⟩)

theorem decodeKey_mkKey (ty : TxType) (c : String) :
    decodeKey (mkKey ty c) = (ty, c) := by
  obtain ⟨cd⟩ := c
  cases ty <;> rfl

theorem mkKey_inj {ty₁ ty₂ : TxType} {c₁ c₂ : String}
    (h : mkKey ty₁ c₁ = mkKey ty₂ c₂) : ty₁ = ty₂ ∧ c₁ = c₂ := by
  have hd := congrArg decodeKey h
  rw [decodeKey_mkKey, decodeKey_mkKey] at hd
  exact ⟨congrArg Prod.fst hd, congrArg Prod.snd hd⟩

/-! Invariants of the group accumulation. -/

theorem addToGroups_key_wf (t : Transaction) : ∀ gs : List Group,
    (∀ g ∈ gs, g.key = mkKey g.type g.category) →
    ∀ g ∈ addToGroups t gs, g.key = mkKey g.type g.category := by
  intro gs
  induction gs with
  | nil =>
    intro _ g hg
    simp only [addToGroups, List.mem_singleton] at hg
    subst hg
    rfl
  | cons g₀ gs ih =>
    intro hwf g hg
    by_cases h : g₀.key = groupKey t
    · rw [addToGroups, if_pos h] at hg
      rcases List.mem_cons.mp hg with hg | hg
      · rw [hg]
        exact hwf g₀ (by simp)
      · exact hwf g (by simp [hg])
    · rw [addToGroups, if_neg h] at hg
      rcases List.mem_cons.mp hg with hg | hg
      · rw [hg]
        exact hwf g₀ (by simp)
      · exact ih (fun g hg => hwf g (by simp [hg])) g hg

theorem addToGroups_keys_mem (t : Transaction) : ∀ gs : List Group,
    ∀ k : String,
    k ∈ (addToGroups t gs).map (fun g => g.key) ↔
      k ∈ gs.map (fun g => g.key) ∨ k = groupKey t := by
  intro gs
  induction gs with
  | nil => intro k; simp [addToGroups]
  | cons g₀ gs ih =>
    intro k
    by_cases h : g₀.key = groupKey t
    · rw [addToGroups, if_pos h]
      simp only [List.map_cons, List.mem_cons]
      constructor
      · rintro (hk | hk)
        · exact Or.inl (Or.inl hk)
        · exact Or.inl (Or.inr hk)
      · rintro ((hk | hk) | hk)
        · exact Or.inl hk
        · exact Or.inr hk
        · exact Or.inl (by rw [hk, ← h])
    · rw [addToGroups, if_neg h]
      simp only [List.map_cons, List.mem_cons, ih]
      tauto

theorem addToGroups_keys_nodup (t : Transaction) : ∀ gs : List Group,
    ((gs.map (fun g => g.key)).Nodup) →
    ((addToGroups t gs).map (fun g => g.key)).Nodup := by
  intro gs
  induction gs with
  | nil => intro _; simp [addToGroups]
  | cons g₀ gs ih =>
    intro hnd
    simp only [List.map_cons, List.nodup_cons] at hnd
    by_cases h : g₀.key = groupKey t
    · rw [addToGroups, if_pos h]
      simp only [List.map_cons, List.nodup_cons]
      exact ⟨hnd.1, hnd.2⟩
    · rw [addToGroups, if_neg h]
      simp only [List.map_cons, List.nodup_cons]
      refine ⟨?_, ih hnd.2⟩
      intro hk
      rcases (addToGroups_keys_mem t gs g₀.key).mp hk with hk | hk
      · exact hnd.1 hk
      · exact h hk

theorem addToGroups_pair_sources (t : Transaction) : ∀ gs : List Group,
    ∀ g ∈ addToGroups t gs,
      (g.type = t.type ∧ g.category = t.category) ∨
      ∃ g₀ ∈ gs, g.type = g₀.type ∧ g.category = g₀.category := by
  intro gs
  induction gs with
  | nil =>
    intro g hg
    simp only [addToGroups, List.mem_singleton] at hg
    subst hg
    exact Or.inl ⟨rfl, rfl⟩
  | cons g₀ gs ih =>
    intro g hg
    by_cases h : g₀.key = groupKey t
    · rw [addToGroups, if_pos h] at hg
      rcases List.mem_cons.mp hg with hg | hg
      · refine Or.inr ⟨g₀, by simp, ?_, ?_⟩ <;> rw [hg]
      · exact Or.inr ⟨g, by simp [hg], rfl, rfl⟩
    · rw [addToGroups, if_neg h] at hg
      rcases List.mem_cons.mp hg with hg | hg
      · refine Or.inr ⟨g₀, by simp, ?_, ?_⟩ <;> rw [hg]
      · rcases ih g hg with hh | ⟨g₁, hg₁, hh⟩
        · exact Or.inl hh
        · exact Or.inr ⟨g₁, by simp [hg₁], hh⟩

theorem addToGroups_pair_preserved (t : Transaction) : ∀ gs : List Group,
    ∀ g₀ ∈ gs, ∃ g ∈ addToGroups t gs,
      g.type = g₀.type ∧ g.category = g₀.category := by
  intro gs
  induction gs with
  | nil => intro g₀ hg₀; simp at hg₀
  | cons g₁ gs ih =>
    intro g₀ hg₀
    by_cases h : g₁.key = groupKey t
    · rw [addToGroups, if_pos h]
      rcases List.mem_cons.mp hg₀ with hg | hg
      · refine ⟨⟨g₁.key, g₁.category, g₁.type, nanAdd g₁.total t.amount,
          g₁.transactions ++ [t]⟩, List.mem_cons_self _ _, ?_, ?_⟩ <;> rw [hg]
      · exact ⟨g₀, by simp [hg], rfl, rfl⟩
    · rw [addToGroups, if_neg h]
      rcases List.mem_cons.mp hg₀ with hg | hg
      · exact ⟨g₀, by simp [hg], rfl, rfl⟩
      · obtain ⟨g, hgmem, hgp⟩ := ih g₀ hg
        exact ⟨g, by simp [hgmem], hgp⟩

theorem addToGroups_self_pair (t : Transaction) : ∀ gs : List Group,
    (∀ g ∈ gs, g.key = mkKey g.type g.category) →
    ∃ g ∈ addToGroups t gs, g.type = t.type ∧ g.category = t.category := by
  intro gs
  induction gs with
  | nil =>
    intro _
    exact ⟨⟨groupKey t, t.category, t.type, nanAdd (some 0) t.amount, [t]⟩,
      by simp [addToGroups], rfl, rfl⟩
  | cons g₀ gs ih =>
    intro hwf
    by_cases h : g₀.key = groupKey t
    · rw [addToGroups, if_pos h]
      have hk : mkKey g₀.type g₀.category = mkKey t.type t.category := by
        rw [← hwf g₀ (by simp), h]; rfl
      obtain ⟨hty, hc⟩ := mkKey_inj hk
      exact ⟨⟨g₀.key, g₀.category, g₀.type, nanAdd g₀.total t.amount,
        g₀.transactions ++ [t]⟩, List.mem_cons_self _ _, hty, hc⟩
    · rw [addToGroups, if_neg h]
      obtain ⟨g, hgmem, hgp⟩ := ih (fun g hg => hwf g (by simp [hg]))
      exact ⟨g, by simp [hgmem], hgp⟩

/-! Fold-level invariants of the group accumulation. -/

theorem fold_key_wf (l : List Transaction) : ∀ gs : List Group,
    (∀ g ∈ gs, g.key = mkKey g.type g.category) →
    ∀ g ∈ l.foldl (fun gs t => addToGroups t gs) gs,
      g.key = mkKey g.type g.category := by
  induction l with
  | nil => intro gs hwf; exact hwf
  | cons t l ih =>
    intro gs hwf
    exact ih (addToGroups t gs) (addToGroups_key_wf t gs hwf)

theorem fold_keys_nodup (l : List Transaction) : ∀ gs : List Group,
    ((gs.map (fun g => g.key)).Nodup) →
    (((l.foldl (fun gs t => addToGroups t gs) gs).map (fun g => g.key)).Nodup) := by
  induction l with
  | nil => intro gs hnd; exact hnd
  | cons t l ih =>
    intro gs hnd
    exact ih (addToGroups t gs) (addToGroups_keys_nodup t gs hnd)

theorem fold_pair_sources (l : List Transaction) : ∀ gs : List Group,
    ∀ g ∈ l.foldl (fun gs t => addToGroups t gs) gs,
      (∃ t ∈ l, g.type = t.type ∧ g.category = t.category) ∨
      ∃ g₀ ∈ gs, g.type = g₀.type ∧ g.category = g₀.category := by
  induction l with
  | nil => intro gs g hg; exact Or.inr ⟨g, hg, rfl, rfl⟩
  | cons t l ih =>
    intro gs g hg
    rcases ih (addToGroups t gs) g hg with ⟨t₁, ht₁, hp⟩ | ⟨g₀, hg₀, hp⟩
    · exact Or.inl ⟨t₁, by simp [ht₁], hp⟩
    · rcases addToGroups_pair_sources t gs g₀ hg₀ with hp₀ | ⟨g₁, hg₁, hp₀⟩
      · exact Or.inl ⟨t, by simp, hp.1.trans hp₀.1, hp.2.trans hp₀.2⟩
      · exact Or.inr ⟨g₁, hg₁, hp.1.trans hp₀.1, hp.2.trans hp₀.2⟩

theorem fold_pair_preserved (l : List Transaction) : ∀ gs : List Group,
    ∀ g₀ ∈ gs, ∃ g ∈ l.foldl (fun gs t => addToGroups t gs) gs,
      g.type = g₀.type ∧ g.category = g₀.category := by
  induction l with
  | nil => intro gs g₀ hg₀; exact ⟨g₀, hg₀, rfl, rfl⟩
  | cons t l ih =>
    intro gs g₀ hg₀
    obtain ⟨g₁, hg₁, hp₁⟩ := addToGroups_pair_preserved t gs g₀ hg₀
    obtain ⟨g, hg, hp⟩ := ih (addToGroups t gs) g₁ hg₁
    exact ⟨g, hg, hp.1.trans hp₁.1, hp.2.trans hp₁.2⟩

theorem fold_covers (l : List Transaction) : ∀ gs : List Group,
    (∀ g ∈ gs, g.key = mkKey g.type g.category) →
    ∀ t ∈ l, ∃ g ∈ l.foldl (fun gs t => addToGroups t gs) gs,
      g.type = t.type ∧ g.category = t.category := by
  induction l with
  | nil => intro gs _ t ht; simp at ht
  | cons t₀ l ih =>
    intro gs hwf t ht
    rcases List.mem_cons.mp ht with hteq | htl
    · obtain ⟨g₁, hg₁, hp₁⟩ := addToGroups_self_pair t₀ gs hwf
      obtain ⟨g, hg, hp⟩ := fold_pair_preserved l (addToGroups t₀ gs) g₁ hg₁
      rw [hteq]
      exact ⟨g, hg, hp.1.trans hp₁.1, hp.2.trans hp₁.2⟩
    · exact ih (addToGroups t₀ gs) (addToGroups_key_wf t₀ gs hwf) t htl

/-! Properties of the sort comparator. -/

theorem jsNumLE_trans (a b c : JSNum) (h1 : jsNumLE a b = true)
    (h2 : jsNumLE b c = true) : jsNumLE a c = true := by
  cases a <;> cases b <;> cases c <;>
    simp only [jsNumLE, decide_eq_true_eq] at h1 h2 ⊢ <;>
    first
    | trivial
    | exact le_trans h1 h2

theorem jsNumLE_total (a b : JSNum) : (jsNumLE a b || jsNumLE b a) = true := by
  cases a <;> cases b <;>
    simp only [jsNumLE, Bool.or_eq_true, decide_eq_true_eq] <;>
    first
    | trivial
    | exact le_total _ _

theorem groupLE_trans (a b c : Group) (h1 : groupLE a b = true)
    (h2 : groupLE b c = true) : groupLE a c = true := by
  obtain ⟨ka, ca, tya, tota, la⟩ := a
  obtain ⟨kb, cb, tyb, totb, lb⟩ := b
  obtain ⟨kc, cc, tyc, totc, lc⟩ := c
  unfold groupLE at h1 h2 ⊢
  cases tya <;> cases tyb <;> cases tyc <;> simp at h1 h2 ⊢ <;>
    first
    | trivial
    | exact jsNumLE_trans _ _ _ h2 h1

theorem groupLE_total (a b : Group) : (groupLE a b || groupLE b a) = true := by
  obtain ⟨ka, ca, tya, tota, la⟩ := a
  obtain ⟨kb, cb, tyb, totb, lb⟩ := b
  unfold groupLE
  cases tya <;> cases tyb <;> simp <;>
    simpa using jsNumLE_total totb tota

/-- C7: the grouped view has exactly one group per distinct (type, category)
pair observed in the filtered set and none for unobserved pairs, and the
returned sequence places every Income group before every Expense group,
with groups of equal type in descending order of (finite) total. -/
theorem grouped_view_structure (filtered : List Transaction) :
    (((getGroupedTransactions filtered).map (fun g => (g.type, g.category))).Nodup) ∧
    (∀ g ∈ getGroupedTransactions filtered,
      ∃ t ∈ filtered, g.type = t.type ∧ g.category = t.category) ∧
    (∀ t ∈ filtered,
      ∃ g ∈ getGroupedTransactions filtered,
        g.type = t.type ∧ g.category = t.category) ∧
    (getGroupedTransactions filtered).Pairwise (fun a b =>
      (a.type = TxType.Income ∧ b.type = TxType.Expense) ∨
      (a.type = b.type ∧ ∀ x y : ℚ, a.total = some x → b.total = some y → y ≤ x)) := by
  have hwf : ∀ g ∈ groupsOf filtered, g.key = mkKey g.type g.category :=
    fold_key_wf filtered [] (by simp)
  have hperm : (getGroupedTransactions filtered).Perm (groupsOf filtered) :=
    List.mergeSort_perm (groupsOf filtered) groupLE
  refine ⟨?_, ?_, ?_, ?_⟩
  · -- one group per distinct pair
    have hkeys : ((groupsOf filtered).map (fun g => g.key)).Nodup :=
      fold_keys_nodup filtered [] (by simp)
    have hmapeq : (groupsOf filtered).map (fun g => g.key) =
        ((groupsOf filtered).map (fun g => (g.type, g.category))).map
          (fun p => mkKey p.1 p.2) := by
      rw [List.map_map]
      exact List.map_congr_left (fun g hg => hwf g hg)
    rw [hmapeq] at hkeys
    have hpairs : ((groupsOf filtered).map (fun g => (g.type, g.category))).Nodup :=
      List.Nodup.of_map _ hkeys
    exact ((hperm.map (fun g => (g.type, g.category))).nodup_iff).mpr hpairs
  · -- every group's pair is observed in the data
    intro g hg
    have hg' : g ∈ groupsOf filtered := (List.mem_mergeSort).mp hg
    rcases fold_pair_sources filtered [] g hg' with ⟨t, ht, hp⟩ | ⟨g₀, hg₀, _⟩
    · exact ⟨t, ht, hp⟩
    · simp at hg₀
  · -- every transaction's pair has a group
    intro t ht
    obtain ⟨g, hg, hp⟩ := fold_covers filtered [] (by simp) t ht
    exact ⟨g, (List.mem_mergeSort).mpr hg, hp⟩
  · -- ordering
    have hsorted := List.sorted_mergeSort groupLE_trans groupLE_total
      (groupsOf filtered)
    refine hsorted.imp ?_
    intro a b hab
    rw [groupLE] at hab
    by_cases hty : a.type = b.type
    · rw [if_pos hty] at hab
      refine Or.inr ⟨hty, ?_⟩
      intro x y hx hy
      rw [hx, hy] at hab
      simpa [jsNumLE] using hab
    · rw [if_neg hty] at hab
      simp only [decide_eq_true_eq] at hab
      refine Or.inl ⟨hab, ?_⟩
      cases hb : b.type
      · rw [hab, hb] at hty; exact absurd rfl hty
      · rfl

/-! Concrete records used by the witnesses. -/

/-- Sample dependent transaction: an Expense filed under 'Food'. -/
def txFood : Transaction :=
  ⟨natToString 5, ⟨2025, 2, 10⟩, "3/10/2025", TxType.Expense, some 50, "Food", ""⟩

/-- Sample transaction of the other type whose category string also reads
'Food'. -/
def txGift : Transaction :=
  ⟨natToString 6, ⟨2025, 2, 11⟩, "3/11/2025", TxType.Income, some 100, "Food", ""⟩

/-- Sample registry state. -/
def demoCategories : Categories := ⟨["Salary"], ["Food", "Bills"]⟩

/-- Witness for C1: the deletion-mode characterization applied to a concrete
ledger with one dependent transaction and a chosen target 'Bills'. -/
theorem category_deletion_modes_witness :
    ("Bills" : String) ≠ "" ∧
    (((executeCategoryDeletion "Food" TxType.Expense .delete "Bills"
        [txFood, txGift] demoCategories).2 = true ∧
      (∀ t : Transaction,
        (executeCategoryDeletion "Food" TxType.Expense .delete "Bills"
          [txFood, txGift] demoCategories).1.1.count t =
        if t.category = "Food" ∧ t.type = TxType.Expense then 0
        else ([txFood, txGift] : List Transaction).count t) ∧
      (executeCategoryDeletion "Food" TxType.Expense .delete "Bills"
        [txFood, txGift] demoCategories).1.1.length +
        (dependents "Food" TxType.Expense [txFood, txGift]).length =
        ([txFood, txGift] : List Transaction).length ∧
      "Food" ∉
        (executeCategoryDeletion "Food" TxType.Expense .delete "Bills"
          [txFood, txGift] demoCategories).1.2.listFor TxType.Expense ∧
      (∀ c, c ≠ "Food" →
        ((executeCategoryDeletion "Food" TxType.Expense .delete "Bills"
          [txFood, txGift] demoCategories).1.2.listFor TxType.Expense).count c =
          ((demoCategories.listFor TxType.Expense).count c))) ∧
     ((executeCategoryDeletion "Food" TxType.Expense .reassign "Bills"
        [txFood, txGift] demoCategories).2 = true ∧
      (executeCategoryDeletion "Food" TxType.Expense .reassign "Bills"
        [txFood, txGift] demoCategories).1.1.length =
        ([txFood, txGift] : List Transaction).length ∧
      (∀ i, (hi : i < ([txFood, txGift] : List Transaction).length) →
        if (([txFood, txGift] : List Transaction)[i]).category = "Food" ∧
            (([txFood, txGift] : List Transaction)[i]).type = TxType.Expense
        then ∃ t',
          (executeCategoryDeletion "Food" TxType.Expense .reassign "Bills"
            [txFood, txGift] demoCategories).1.1[i]? = some t' ∧
          t'.category = "Bills" ∧
          t'.id = (([txFood, txGift] : List Transaction)[i]).id ∧
          t'.type = (([txFood, txGift] : List Transaction)[i]).type ∧
          t'.amount = (([txFood, txGift] : List Transaction)[i]).amount ∧
          t'.note = (([txFood, txGift] : List Transaction)[i]).note ∧
          t'.dateISO = (([txFood, txGift] : List Transaction)[i]).dateISO ∧
          t'.displayDate = (([txFood, txGift] : List Transaction)[i]).displayDate
        else
          (executeCategoryDeletion "Food" TxType.Expense .reassign "Bills"
            [txFood, txGift] demoCategories).1.1[i]? =
            some (([txFood, txGift] : List Transaction)[i])) ∧
      "Food" ∉
        (executeCategoryDeletion "Food" TxType.Expense .reassign "Bills"
          [txFood, txGift] demoCategories).1.2.listFor TxType.Expense ∧
      (∀ c, c ≠ "Food" →
        ((executeCategoryDeletion "Food" TxType.Expense .reassign "Bills"
          [txFood, txGift] demoCategories).1.2.listFor TxType.Expense).count c =
          ((demoCategories.listFor TxType.Expense).count c))) ∧
     ((dependents "Food" TxType.Expense [txFood, txGift]).length = 0 →
        (executeCategoryDeletion "Food" TxType.Expense .delete "Bills"
          [txFood, txGift] demoCategories).1.1 = [txFood, txGift] ∧
        (executeCategoryDeletion "Food" TxType.Expense .reassign "Bills"
          [txFood, txGift] demoCategories).1.1 = [txFood, txGift])) :=
  ⟨by decide,
    category_deletion_modes "Food" TxType.Expense "Bills" [txFood, txGift]
      demoCategories (by decide)⟩

/-- Witness for C3: day-of-month 31 against the 28-day reference month
February 2025 is clamped to February 28. -/
theorem assigned_date_in_reference_month_witness :
    ((⟨2025, 1, 15⟩ : SimpleDate).month < 12 ∧ 1 ≤ 31 ∧ 31 ≤ 31) ∧
    ((assignedDate ⟨2025, 1, 15⟩ 31).year = (⟨2025, 1, 15⟩ : SimpleDate).year ∧
     (assignedDate ⟨2025, 1, 15⟩ 31).month = (⟨2025, 1, 15⟩ : SimpleDate).month ∧
     (31 ≤ daysInMonth 2025 1 → (assignedDate ⟨2025, 1, 15⟩ 31).day = 31) ∧
     (daysInMonth 2025 1 < 31 →
       (assignedDate ⟨2025, 1, 15⟩ 31).day = daysInMonth 2025 1) ∧
     1 ≤ (assignedDate ⟨2025, 1, 15⟩ 31).day ∧
     (assignedDate ⟨2025, 1, 15⟩ 31).day ≤ daysInMonth 2025 1) :=
  ⟨⟨by decide, by decide, by decide⟩,
    assigned_date_in_reference_month ⟨2025, 1, 15⟩ 31 (by decide) (by decide)
      (by decide)⟩

/-- Witness for C4: a valid add call on a ledger whose only prior id was
generated at an earlier clock value. -/
theorem add_prepends_with_fresh_id_witness :
    (("50" : String) ≠ "" ∧ ("Food" : String) ≠ "" ∧
      (∀ t ∈ [txFood], ∃ k, k < 1000 ∧ t.id = natToString k)) ∧
    (∃ newTx,
      handleAddTransaction ⟨TxType.Expense, "50", "Food", ""⟩ ⟨2025, 2, 15⟩
        15 1000 [txFood] = (newTx :: [txFood], true) ∧
      (handleAddTransaction ⟨TxType.Expense, "50", "Food", ""⟩ ⟨2025, 2, 15⟩
        15 1000 [txFood]).1.length = ([txFood] : List Transaction).length + 1 ∧
      newTx.id ∉ ([txFood] : List Transaction).map (fun t => t.id)) := by
  have hids : ∀ t ∈ [txFood], ∃ k, k < 1000 ∧ t.id = natToString k := by
    intro t ht
    rw [List.mem_singleton] at ht
    rw [ht]
    exact ⟨5, by decide, rfl⟩
  exact ⟨⟨by decide, by decide, hids⟩,
    add_prepends_with_fresh_id ⟨TxType.Expense, "50", "Food", ""⟩ ⟨2025, 2, 15⟩
      15 1000 [txFood] (by decide) (by decide) hids⟩

/-- Witness for C10: deleting the Expense category 'Food' leaves the Income
transaction also labelled 'Food', and the Income registry list, unchanged. -/
theorem deletion_type_isolated_witness :
    ((executeCategoryDeletion "Food" TxType.Expense .delete "Bills"
        [txFood, txGift] demoCategories).2 = true) ∧
    ((executeCategoryDeletion "Food" TxType.Expense .delete "Bills"
        [txFood, txGift] demoCategories).1.1.filter
        (fun t => decide (t.type ≠ TxType.Expense)) =
      ([txFood, txGift] : List Transaction).filter
        (fun t => decide (t.type ≠ TxType.Expense)) ∧
     (∀ t ∈ ([txFood, txGift] : List Transaction), t.type ≠ TxType.Expense →
       t ∈ (executeCategoryDeletion "Food" TxType.Expense .delete "Bills"
         [txFood, txGift] demoCategories).1.1) ∧
     (∀ ty, ty ≠ TxType.Expense →
       (executeCategoryDeletion "Food" TxType.Expense .delete "Bills"
         [txFood, txGift] demoCategories).1.2.listFor ty =
         demoCategories.listFor ty)) :=
  ⟨rfl,
    deletion_type_isolated "Food" TxType.Expense .delete "Bills"
      [txFood, txGift] demoCategories rfl⟩

end Spendy
